import Mathlib

/-!
Shallow embedding of `src/synapse/rest/client/v2_alpha/sync.py`
(`SyncRestServlet`): the `/sync` request handler `on_GET` and its
response encoders `encode_presence`, `encode_joined`, `encode_invited`,
`encode_archived`, `encode_room`.

External collaborators (authentication, the filter store, the sync
handler, the event serializer, JSON parsing) are passed in as an
`Oracles` record, and the handler is modelled as a pure function from a
request to a result paired with an ordered trace of observable effects,
so that ordering properties (hook acquisition/release, store accesses)
can be stated.  A separate explicit-heap model of `encode_presence`
captures the Python aliasing semantics needed for the frame-effect
claim about `copy.deepcopy`.
-/

namespace SyncServlet

/-- JSON-like values, the wire data the servlet manipulates.  Objects
keep fields in insertion order, as Python dicts do. -/
inductive JsonV where
  | str (s : String)
  | num (n : Int)
  | bool (b : Bool)
  | null
  | arr (xs : List JsonV)
  | obj (fields : List (String × JsonV))

/-- A Python dict with string keys: an ordered association list. -/
abbrev SDict := List (String × JsonV)

/-- Dict lookup (`d[k]` / `d.get(k)`): first matching key. -/
def dlookup {α : Type} (k : String) : List (String × α) → Option α
  | [] => none
  | (k', v) :: rest => if k' = k then some v else dlookup k rest

/-- Dict assignment `d[k] = v`: updates the existing entry in place
(keeping its position) or appends a new entry at the end, as Python
dict assignment does. -/
def dset {α : Type} (d : List (String × α)) (k : String) (v : α) :
    List (String × α) :=
  match d with
  | [] => [(k, v)]
  | (k', v') :: rest =>
    if k' = k then (k, v) :: rest else (k', v') :: dset rest k v

/-- Dict deletion (the removal part of `d.pop(k)`). -/
def derase {α : Type} (d : List (String × α)) (k : String) :
    List (String × α) :=
  match d with
  | [] => []
  | (k', v') :: rest =>
    if k' = k then rest else (k', v') :: derase rest k

/-- The keys of a dict, in order. -/
def dkeys {α : Type} (d : List (String × α)) : List String := d.map Prod.fst

/-- `dict(j)` on a JSON value: defined on objects (a shallow copy).
Python raises `TypeError` on non-dicts; the theorems that use this
carry the object-shaped hypothesis explicitly. -/
def asDict : JsonV → SDict
  | .obj fs => fs
  | _ => []

/-- `list(j)` on a JSON value: defined on arrays.  Python raises
`TypeError` on non-iterables; the theorems that use this carry the
array-shaped hypothesis explicitly. -/
def asList : JsonV → List JsonV
  | .arr xs => xs
  | _ => []

/-- Error kinds from spec §7, identifying which failure a
`SynapseError` raise in the source corresponds to. -/
inductive ErrKind where
  | invalidParameter
  | invalidCheckpoint
  | unauthorized
  | storeUnavailable
  | internalError
deriving DecidableEq

/-- A raised error: kind (spec §7), HTTP-equivalent code and message
(the code raises `SynapseError(code, msg)`). -/
structure SynError where
  kind : ErrKind
  code : Nat
  msg : String
deriving DecidableEq

/-- Observable effects of one request, in order: consulting the auth
collaborator, inline filter-JSON parsing, a filter-store lookup, the
presence stream-started / stream-stopped hooks, the sync computation,
and a logged room-id mismatch warning (event id, delta's room id,
event's room id). -/
inductive Effect where
  | authCheck
  | jsonParse (s : String)
  | filterStoreLookup (localpart fid : String)
  | startedStream
  | syncCompute
  | stoppedStream
  | logWarn (eventId roomId actualRoomId : String)
deriving DecidableEq

/-- Modelled from the spec: `synapse.types.StreamToken` is not under
`src/`.  Per spec §3 a Checkpoint is an ordered record of one position
per stream that serializes to a compact string token. -/
structure StreamToken where
  parts : List Nat
deriving DecidableEq

/-- Modelled from the spec: token serialization, underscore-separated
stream positions. -/
def StreamToken.to_string (t : StreamToken) : String :=
  String.intercalate "_" (t.parts.map toString)

/-- Split a character list on the underscore character (code point
0x5f), keeping empty pieces. -/
def splitUnders : List Char → List (List Char)
  | [] => [[]]
  | c :: rest =>
    if c = Char.ofNat 95 then [] :: splitUnders rest
    else
      match splitUnders rest with
      | [] => [[c]]
      | p :: ps => (c :: p) :: ps

/-- Read a nonempty all-decimal-digit character list as a number. -/
def digitsToNat : List Char → Option Nat
  | [] => none
  | cs =>
    cs.foldl (fun acc c =>
      match acc with
      | none => none
      | some n => if c.isDigit then some (n * 10 + (c.toNat - 48)) else none)
      (some 0)

/-- Modelled from the spec: parsing a malformed token fails (returns
`none`; the caller raises a dedicated `invalidCheckpoint` error, spec
§3/§7, never a silent default).  A token is well-formed when every
underscore-separated part is a nonempty decimal number. -/
def StreamToken.from_string (s : String) : Option StreamToken :=
  let pieces := splitUnders s.data
  if pieces.all (fun p => (digitsToNat p).isSome) then
    some ⟨pieces.filterMap digitsToNat⟩
  else
    none

/-- A handler-side event object (the fields `encode_room` reads
directly; everything else is reached through the serializer oracle). -/
structure EventE where
  event_id : String
  room_id : String
  payload : SDict

/-- `room.timeline` of a sync result. -/
structure TimelineBatch where
  events : List EventE
  prev_batch : StreamToken
  limited : Bool

/-- A joined or archived room's sync result (`JoinedSyncResult` /
`ArchivedSyncResult`).  `ephemeral` and `unread_notifications` are only
read when the room is encoded as joined, mirroring the duck-typed
Python objects. -/
structure RoomResult where
  room_id : String
  timeline : TimelineBatch
  state : List (String × EventE)
  account_data : List JsonV
  ephemeral : List JsonV
  unread_notifications : JsonV

/-- An invited room's sync result (`InvitedSyncResult`). -/
structure InvitedRoom where
  room_id : String
  invite : EventE

/-- The sync handler's result (`SyncResult`). -/
structure SyncResultM where
  joined : List RoomResult
  invited : List InvitedRoom
  archived : List RoomResult
  account_data : List JsonV
  presence : List SDict
  next_batch : StreamToken

/-- The user identity resolved by authentication. -/
structure UserM where
  localpart : String
deriving DecidableEq

/-- The authenticated requester (`auth.get_user_by_req` result). -/
structure Requester where
  user : UserM
  is_guest : Bool
  access_token_id : Option Nat
deriving DecidableEq

/-- The resolved filter: the default collection, an inline JSON
filter (`FilterCollection(filter_object)`), or one fetched from the
filter store (`get_user_filter`). -/
inductive FilterCollection where
  | default
  | ofJson (j : JsonV)
  | stored (localpart fid : String)

/-- `SyncConfig(user, filter_collection, is_guest)`. -/
structure SyncConfig where
  user : UserM
  filter_collection : FilterCollection
  is_guest : Bool

/-- An incoming request: its query arguments, in order.  `request.args`
is a multidict; lookups take the first value for a key. -/
structure Request where
  args : List (String × String)
deriving DecidableEq

/-- First value for a query parameter, `none` when absent. -/
def lookupArg (req : Request) (name : String) : Option String :=
  (req.args.find? (fun p => p.1 = name)).map Prod.snd

/-- `name in request.args`. -/
def hasArg (req : Request) (name : String) : Bool :=
  (lookupArg req name).isSome

/-- The external collaborators of `on_GET`, each an oracle.  `auth` is
the authentication collaborator's response for this request;
`jsonLoads` is `ujson.loads` (`none` = parse failure); the serializer
takes the event, `time_now` and the access-token id. -/
structure Oracles where
  auth : Except SynError Requester
  jsonLoads : String → Option JsonV
  checkValidFilter : JsonV → Except SynError Unit
  getUserFilter : String → String → FilterCollection
  wait_for_sync : SyncConfig → Option StreamToken → Int → Bool →
    Except SynError SyncResultM
  clock : Int
  ser : EventE → Int → Option Nat → SDict

/-- Modelled from the spec: `parse_integer` from `synapse.http.servlet`
(argument parsing is an external collaborator, spec §1/§6; `timeout_ms`
defaults to 0).  A present but non-numeric value is rejected with a
4xx `invalidParameter` error. -/
def parse_integer (req : Request) (name : String) (dflt : Int) :
    Except SynError Int :=
  match lookupArg req name with
  | none => .ok dflt
  | some s =>
    match s.toInt? with
    | some n => .ok n
    | none => .error ⟨.invalidParameter, 400,
        "Query parameter " ++ name ++ " must be an integer"⟩

/-- Modelled from the spec: `parse_string` with `allowed_values`
(spec §6: `set_presence` is an enum with default `online`; spec §7: an
invalid presence value is an `invalidParameter` rejection). -/
def parse_string_allowed (req : Request) (name dflt : String)
    (allowed : List String) : Except SynError String :=
  match lookupArg req name with
  | none => .ok dflt
  | some v =>
    if v ∈ allowed then .ok v
    else .error ⟨.invalidParameter, 400,
      "Query parameter " ++ name ++ " must be one of the allowed values"⟩

/-- Modelled from the spec: `parse_boolean` (spec §6: `full_state` is a
bool defaulting to false). -/
def parse_boolean (req : Request) (name : String) (dflt : Bool) :
    Except SynError Bool :=
  match lookupArg req name with
  | none => .ok dflt
  | some "true" => .ok true
  | some "false" => .ok false
  | some _ => .error ⟨.invalidParameter, 400,
      "Boolean query parameter " ++ name ++ " must be one of " ++
      "true or false"⟩

/-- `ALLOWED_PRESENCE = {"online", "offline"}`. -/
def ALLOWED_PRESENCE : List String := ["online", "offline"]

/-- `filter_id.startswith('{')` (line 117): does the string begin with
the opening-brace character (code point 0x7b)? -/
def startsWithBrace (s : String) : Bool :=
  match s.data with
  | c :: _ => c = Char.ofNat 123
  | [] => false

/-- Lines 116–129 of `on_GET`: resolve the `filter` query parameter
into a `FilterCollection`.  A truthy (non-empty) value starting with
`{` is parsed as inline JSON (failure raises a 400), validated, and
wrapped; any other truthy value is looked up in the filter store; a
falsy value (absent or empty string) selects
`DEFAULT_FILTER_COLLECTION`.  Also returns the trace of effects this
step performs. -/
def resolve_filter (O : Oracles) (localpart : String)
    (filter_id : Option String) :
    Except SynError FilterCollection × List Effect :=
  match filter_id with
  | none => (.ok .default, [])
  | some fid =>
    if fid = "" then (.ok .default, [])
    else if startsWithBrace fid then
      match O.jsonLoads fid with
      | none => (.error ⟨.invalidParameter, 400, "Invalid filter JSON"⟩,
          [.jsonParse fid])
      | some fo =>
        match O.checkValidFilter fo with
        | .error e => (.error e, [.jsonParse fid])
        | .ok _ => (.ok (.ofJson fo), [.jsonParse fid])
    else
      (.ok (O.getUserFilter localpart fid), [.filterStoreLookup localpart fid])

/-- Lines 137–140 of `on_GET`: parse the optional `since` value into a
stream token; a malformed token raises the dedicated checkpoint
error. -/
def parse_since_token (since : Option String) :
    Except SynError (Option StreamToken) :=
  match since with
  | none => .ok none
  | some s =>
    match StreamToken.from_string s with
    | some t => .ok (some t)
    | none => .error ⟨.invalidCheckpoint, 400, "Invalid stream token"⟩

/-- The loop body of `encode_presence` (lines 185–188), value-level
semantics: the event is deep-copied, `user_id` is popped out of its
`content` and assigned to the top-level `sender`.  A missing `content`
dict or `user_id` key is the Python `KeyError`/`TypeError` path,
modelled as an internal error.  (The aliasing behaviour of the deep
copy, invisible at value level, is modelled separately on an explicit
heap below.) -/
def format_presence_event (ev : SDict) : Except SynError JsonV :=
  match dlookup "content" ev with
  | some (JsonV.obj c) =>
    match dlookup "user_id" c with
    | some uid =>
      .ok (.obj (dset (dset ev "content" (.obj (derase c "user_id"))) "sender" uid))
    | none => .error ⟨.internalError, 500, "KeyError: user_id"⟩
  | _ => .error ⟨.internalError, 500, "KeyError: content"⟩

/-- The `formatted` accumulation loop of `encode_presence`. -/
def formatPresenceList : List SDict → Except SynError (List JsonV)
  | [] => .ok []
  | ev :: rest =>
    match format_presence_event ev with
    | .error e => .error e
    | .ok f =>
      match formatPresenceList rest with
      | .error e => .error e
      | .ok fs => .ok (f :: fs)

/-- `encode_presence` (lines 183–189), wrapping the transformed
events under an `events` key. -/
def encode_presence (events : List SDict) (_time_now : Int) :
    Except SynError JsonV :=
  match formatPresenceList events with
  | .error e => .error e
  | .ok formatted => .ok (.obj [("events", .arr formatted)])

/-- `encode_room` (lines 265–321): serialize a joined or archived
room.  Returns the room's response dict and the data-integrity
warnings logged for events filed under the wrong room. -/
def encode_room (ser : EventE → Int → Option Nat → SDict)
    (room : RoomResult) (time_now : Int) (token_id : Option Nat)
    (joined : Bool) : SDict × List Effect :=
  let state_events := room.state.map Prod.snd
  let timeline_events := room.timeline.events
  let warnings := (state_events ++ timeline_events).filterMap (fun e =>
    if e.room_id ≠ room.room_id then
      some (Effect.logWarn e.event_id room.room_id e.room_id)
    else none)
  let serialized_state := state_events.map (fun e => JsonV.obj (ser e time_now token_id))
  let serialized_timeline := timeline_events.map (fun e => JsonV.obj (ser e time_now token_id))
  let base : SDict :=
    [("timeline", .obj [
        ("events", .arr serialized_timeline),
        ("prev_batch", .str room.timeline.prev_batch.to_string),
        ("limited", .bool room.timeline.limited)]),
     ("state", .obj [("events", .arr serialized_state)]),
     ("account_data", .obj [("events", .arr room.account_data)])]
  let result :=
    if joined then
      dset (dset base "ephemeral" (.obj [("events", .arr room.ephemeral)]))
        "unread_notifications" room.unread_notifications
    else base
  (result, warnings)

/-- `encode_joined` (lines 191–211): map each joined room's id to its
encoded form, collecting the logged warnings. -/
def encode_joined (ser : EventE → Int → Option Nat → SDict)
    (rooms : List RoomResult) (time_now : Int) (token_id : Option Nat) :
    SDict × List Effect :=
  rooms.foldl (fun (acc : SDict × List Effect) room =>
    (dset acc.1 room.room_id (.obj (encode_room ser room time_now token_id true).1),
     acc.2 ++ (encode_room ser room time_now token_id true).2)) ([], [])

/-- `encode_archived` (lines 243–263): like `encode_joined` but with
`joined=False`. -/
def encode_archived (ser : EventE → Int → Option Nat → SDict)
    (rooms : List RoomResult) (time_now : Int) (token_id : Option Nat) :
    SDict × List Effect :=
  rooms.foldl (fun (acc : SDict × List Effect) room =>
    (dset acc.1 room.room_id (.obj (encode_room ser room time_now token_id false).1),
     acc.2 ++ (encode_room ser room time_now token_id false).2)) ([], [])

/-- The per-room body of the `encode_invited` loop (lines 228–239):
serialize the invite, shallow-copy its `unsigned`, pop the bundled
`invite_room_state` out of that copy (which is also the copy installed
back into the invite), and append the invite itself as the final entry
of `invite_state.events`. -/
def encode_invited_room (ser : EventE → Int → Option Nat → SDict)
    (room : InvitedRoom) (time_now : Int) (token_id : Option Nat) : JsonV :=
  let invite := ser room.invite time_now token_id
  let unsigned := asDict ((dlookup "unsigned" invite).getD (.obj []))
  let stripped := asList ((dlookup "invite_room_state" unsigned).getD (.arr []))
  let unsigned' := derase unsigned "invite_room_state"
  let invite' := dset invite "unsigned" (.obj unsigned')
  let invited_state := stripped ++ [JsonV.obj invite']
  .obj [("invite_state", .obj [("events", .arr invited_state)])]

/-- `encode_invited` (lines 213–241): map each invited room's id to
its encoded form. -/
def encode_invited (ser : EventE → Int → Option Nat → SDict)
    (rooms : List InvitedRoom) (time_now : Int) (token_id : Option Nat) :
    SDict :=
  rooms.foldl (fun (acc : SDict) room =>
    dset acc room.room_id (encode_invited_room ser room time_now token_id)) []

/-- `on_GET` (lines 86–181): the `/sync` request handler.  Returns the
result — `(200, response_content)` or the raised error — and the
ordered trace of observable effects.  The `try`/`finally` around the
sync computation (lines 145–152) becomes the unconditional
`stoppedStream` emission on both outcomes of `wait_for_sync`. -/
def on_GET (O : Oracles) (req : Request) :
    Except SynError (Nat × JsonV) × List Effect :=
  if hasArg req "from" then
    (.error ⟨.invalidParameter, 400,
      "'from' is not a valid query parameter. Did you mean 'since'?"⟩, [])
  else
    match O.auth with
    | .error e => (.error e, [.authCheck])
    | .ok requester =>
      match parse_integer req "timeout" 0 with
      | .error e => (.error e, [.authCheck])
      | .ok timeout =>
        let since := lookupArg req "since"
        match parse_string_allowed req "set_presence" "online" ALLOWED_PRESENCE with
        | .error e => (.error e, [.authCheck])
        | .ok set_presence =>
          let filter_id := lookupArg req "filter"
          match parse_boolean req "full_state" false with
          | .error e => (.error e, [.authCheck])
          | .ok full_state =>
            match resolve_filter O requester.user.localpart filter_id with
            | (.error e, ftr) => (.error e, .authCheck :: ftr)
            | (.ok filter, ftr) =>
              let sync_config : SyncConfig :=
                ⟨requester.user, filter, requester.is_guest⟩
              match parse_since_token since with
              | .error e => (.error e, .authCheck :: ftr)
              | .ok since_token =>
                let online := set_presence = "online"
                let pre := if online then [Effect.startedStream] else []
                let post := if online then [Effect.stoppedStream] else []
                match O.wait_for_sync sync_config since_token timeout full_state with
                | .error e =>
                  (.error e, .authCheck :: ftr ++ pre ++ [.syncCompute] ++ post)
                | .ok sync_result =>
                  let time_now := O.clock
                  let (joined, w1) := encode_joined O.ser sync_result.joined
                    time_now requester.access_token_id
                  let invited := encode_invited O.ser sync_result.invited
                    time_now requester.access_token_id
                  let (archived, w2) := encode_archived O.ser sync_result.archived
                    time_now requester.access_token_id
                  match encode_presence sync_result.presence time_now with
                  | .error e =>
                    (.error e,
                     .authCheck :: ftr ++ pre ++ [.syncCompute] ++ post ++ w1 ++ w2)
                  | .ok presenceJson =>
                    (.ok (200, .obj [
                        ("account_data", .obj [("events", .arr sync_result.account_data)]),
                        ("presence", presenceJson),
                        ("rooms", .obj [
                          ("join", .obj joined),
                          ("invite", .obj invited),
                          ("leave", .obj archived)]),
                        ("next_batch", .str sync_result.next_batch.to_string)]),
                     .authCheck :: ftr ++ pre ++ [.syncCompute] ++ post ++ w1 ++ w2)

/-! ### Explicit-heap model of `encode_presence`

Python presence events are mutable dict objects whose `content` entry
is a reference to another dict.  To state the frame effect of
`copy.deepcopy` (line 186) we model the object graph explicitly: a
heap maps addresses to dict objects whose values are either immediate
primitives or references to other heap objects. -/

/-- A value stored in a Python dict: a primitive, or a reference to a
heap-allocated dict. -/
inductive PyVal where
  | prim (j : JsonV)
  | ref (a : Nat)

/-- A heap-allocated Python dict. -/
abbrev PyDict := List (String × PyVal)

/-- The heap: allocated objects and the next fresh address. -/
structure Heap where
  mem : List (Nat × PyDict)
  next : Nat

/-- First object stored under an address in an allocation list. -/
def hfind : List (Nat × PyDict) → Nat → Option PyDict
  | [], _ => none
  | (k, v) :: rest, a => if k = a then some v else hfind rest a

/-- Replace the object stored under an address in an allocation
list. -/
def hstore : List (Nat × PyDict) → Nat → PyDict → List (Nat × PyDict)
  | [], _, _ => []
  | (k, v) :: rest, a, d =>
    if k = a then (k, d) :: rest else (k, v) :: hstore rest a d

/-- Read the object at an address. -/
def Heap.get (σ : Heap) (a : Nat) : Option PyDict :=
  hfind σ.mem a

/-- Overwrite the object at an address (in-place dict mutation). -/
def Heap.set (σ : Heap) (a : Nat) (d : PyDict) : Heap :=
  ⟨hstore σ.mem a d, σ.next⟩

/-- Allocate a fresh object, returning the new heap and its address. -/
def Heap.alloc (σ : Heap) (d : PyDict) : Heap × Nat :=
  (⟨σ.mem ++ [(σ.next, d)], σ.next + 1⟩, σ.next)

/-- A well-formed heap never stores an object at an address that is
not yet allocated. -/
def Heap.wf (σ : Heap) : Prop := ∀ p ∈ σ.mem, p.1 < σ.next

/-- A pending `deepcopy` job: copy the object behind an address, or
copy a dict's entries left to right. -/
inductive CopyArg where
  | addr (a : Nat)
  | entries (d : PyDict)

/-- The result of a `deepcopy` job. -/
inductive CopyOut where
  | addr (a : Nat)
  | entries (d : PyDict)

/-- `copy.deepcopy` on the heap: recursively copy every reachable
dict into fresh addresses.  `fuel` bounds the recursion depth (Python
handles arbitrary acyclic graphs; presence events are two levels
deep), and the two job kinds are merged into one function so the
recursion is structural on `fuel`. -/
def deepcopyGo (fuel : Nat) (σ : Heap) (t : CopyArg) :
    Option (Heap × CopyOut) :=
  match fuel with
  | 0 => none
  | fuel' + 1 =>
    match t with
    | .addr a =>
      match σ.get a with
      | none => none
      | some d =>
        match deepcopyGo fuel' σ (.entries d) with
        | some (σ', .entries d') => some ((σ'.alloc d').1, .addr σ'.next)
        | _ => none
    | .entries [] => some (σ, .entries [])
    | .entries ((k, .prim j) :: rest) =>
      match deepcopyGo fuel' σ (.entries rest) with
      | some (σ', .entries rest') => some (σ', .entries ((k, .prim j) :: rest'))
      | _ => none
    | .entries ((k, .ref b) :: rest) =>
      match deepcopyGo fuel' σ (.addr b) with
      | some (σ₁, .addr b') =>
        match deepcopyGo fuel' σ₁ (.entries rest) with
        | some (σ₂, .entries rest') =>
          some (σ₂, .entries ((k, .ref b') :: rest'))
        | _ => none
      | _ => none

/-- `copy.deepcopy(event)` for the dict object at address `a`. -/
def deepcopyAddr (fuel : Nat) (σ : Heap) (a : Nat) : Option (Heap × Nat) :=
  match deepcopyGo fuel σ (.addr a) with
  | some (σ', .addr a') => some (σ', a')
  | _ => none

/-- The body of the `encode_presence` loop (lines 185–188) on the
heap model: deep-copy the event at `a`, pop `user_id` out of the
copy's `content` dict (an in-place mutation of that dict), and assign
it to the copy's top-level `sender`.  Fails (`none`) when the copy
runs out of fuel, `content` is not a dict reference, or `user_id` is
absent — the Python `TypeError`/`KeyError` paths. -/
def encodePresOne (fuel : Nat) (σ : Heap) (a : Nat) : Option (Heap × Nat) :=
  match deepcopyAddr fuel σ a with
  | none => none
  | some (σ₁, a') =>
    match σ₁.get a' with
    | none => none
    | some d =>
      match dlookup "content" d with
      | some (.ref c) =>
        match σ₁.get c with
        | none => none
        | some cd =>
          match dlookup "user_id" cd with
          | some uid =>
            let σ₂ := σ₁.set c (derase cd "user_id")
            let σ₃ := σ₂.set a' (dset d "sender" uid)
            some (σ₃, a')
          | none => none
      | _ => none

/-- `encode_presence` (lines 183–189) on the heap model: transform
each event address in order, returning the final heap and the
addresses of the formatted copies. -/
def encode_presence_heap (fuel : Nat) (σ : Heap) :
    List Nat → Option (Heap × List Nat)
  | [] => some (σ, [])
  | a :: rest =>
    match encodePresOne fuel σ a with
    | none => none
    | some (σ₁, a') =>
      match encode_presence_heap fuel σ₁ rest with
      | none => none
      | some (σ₂, out) => some (σ₂, a' :: out)

/-- The same request with one query parameter removed, for comparing
handler behaviour with and without that parameter. -/
def eraseArg (req : Request) (name : String) : Request :=
  ⟨req.args.filter (fun p => p.1 ≠ name)⟩

/-- A concrete oracle assignment for evaluating the theorems on closed
inputs. -/
def sampleOracles : Oracles where
  auth := .ok ⟨⟨"alice"⟩, false, some 7⟩
  jsonLoads := fun s => if s = "\x7b\x7d" then some (.obj []) else none
  checkValidFilter := fun _ => .ok ()
  getUserFilter := fun lp fid => .stored lp fid
  wait_for_sync := fun _ _ _ _ => .ok ⟨[], [], [], [], [], ⟨[0]⟩⟩
  clock := 1000
  ser := fun e _ _ => [("event_id", .str e.event_id), ("room_id", .str e.room_id)]

/-- A concrete room sync result whose state holds an event filed under
a different room id. -/
def sampleRoom : RoomResult where
  room_id := "!r:hs"
  timeline := ⟨[⟨"$t1", "!r:hs", []⟩], ⟨[3]⟩, false⟩
  state := [("m.room.name", ⟨"$s1", "!other:hs", []⟩)]
  account_data := []
  ephemeral := [.str "typing"]
  unread_notifications := .obj [("notification_count", .num 2)]

/-- A concrete invited room whose serialized invite carries a bundled
stripped-state preview (under `sampleInviteSer`). -/
def sampleInvite : InvitedRoom where
  room_id := "!r2:hs"
  invite := ⟨"$inv", "!r2:hs", []⟩

/-- A serializer for `sampleInvite` that attaches a room-name preview
event under `unsigned.invite_room_state`. -/
def sampleInviteSer : EventE → Int → Option Nat → SDict :=
  fun e _ _ =>
    [("event_id", .str e.event_id),
     ("unsigned", .obj [("invite_room_state",
        .arr [.obj [("type", .str "m.room.name")]])])]

/-- The relation C7 asserts between an input presence event and its
encoded form: the user id that sat at `content.user_id` is now the
top-level `sender`, and is gone from the encoded `content`. -/
def presenceMoved (e : SDict) (f : JsonV) : Prop :=
  ∃ c uid fd, dlookup "content" e = some (JsonV.obj c) ∧
    dlookup "user_id" c = some uid ∧
    f = JsonV.obj fd ∧
    dlookup "sender" fd = some uid ∧
    dlookup "content" fd = some (.obj (derase c "user_id")) ∧
    dlookup "user_id" (derase c "user_id") = none

/-- A concrete presence event as the handler sees it: a dict whose
`content` carries the acting user's id. -/
def samplePresenceEvent : SDict :=
  [("type", .str "m.presence"),
   ("content", .obj [("user_id", .str "@alice:hs"),
                     ("presence", .str "online")])]

/-- A concrete heap holding one presence event at address 0 whose
`content` dict lives at address 1. -/
def sampleHeap : Heap where
  mem := [(0, [("type", .prim (.str "m.presence")), ("content", .ref 1)]),
          (1, [("user_id", .prim (.str "@alice:hs")),
               ("presence", .prim (.str "online"))])]
  next := 2

/-! ### Dictionary lemmas -/

theorem dlookup_dset_self {α : Type} (d : List (String × α)) (k : String)
    (v : α) : dlookup k (dset d k v) = some v := by
  induction d with
  | nil => simp [dset, dlookup]
  | cons p rest ih =>
    obtain ⟨k', v'⟩ := p
    by_cases h : k' = k
    · simp [dset, h, dlookup]
    · simp [dset, h, dlookup, ih]

theorem dlookup_dset_ne {α : Type} (d : List (String × α)) (k k' : String)
    (v : α) (h : k' ≠ k) : dlookup k' (dset d k v) = dlookup k' d := by
  induction d with
  | nil => simp [dset, dlookup, Ne.symm h]
  | cons p rest ih =>
    obtain ⟨k₀, v₀⟩ := p
    by_cases hk : k₀ = k
    · subst hk
      simp [dset, dlookup, Ne.symm h]
    · simp only [dset, if_neg hk, dlookup]
      by_cases hk' : k₀ = k'
      · simp [hk']
      · simp [hk', ih]

theorem dlookup_eq_none_of_not_mem {α : Type} (d : List (String × α))
    (k : String) (h : k ∉ dkeys d) : dlookup k d = none := by
  induction d with
  | nil => rfl
  | cons p rest ih =>
    obtain ⟨k', v'⟩ := p
    simp only [dkeys, List.map_cons, List.mem_cons] at h
    push_neg at h
    simp only [dlookup, if_neg (fun hh : k' = k => h.1 hh.symm)]
    exact ih (by simpa [dkeys] using h.2)

theorem dlookup_derase_none {α : Type} (d : List (String × α)) (k : String)
    (h : (dkeys d).Nodup) : dlookup k (derase d k) = none := by
  induction d with
  | nil => rfl
  | cons p rest ih =>
    obtain ⟨k', v'⟩ := p
    simp only [dkeys, List.map_cons, List.nodup_cons] at h
    by_cases hk : k' = k
    · subst hk
      simpa only [derase, if_pos rfl] using
        dlookup_eq_none_of_not_mem rest k' h.1
    · simp only [derase, if_neg hk, dlookup, if_neg hk]
      exact ih h.2

theorem dlookup_mem {α : Type} (d : List (String × α)) (k : String) (v : α)
    (h : dlookup k d = some v) : (k, v) ∈ d := by
  induction d with
  | nil => simp [dlookup] at h
  | cons p rest ih =>
    obtain ⟨k', v'⟩ := p
    by_cases hk : k' = k
    · subst hk
      have hv : v' = v := by simpa [dlookup] using h
      subst hv
      exact List.mem_cons_self _ _
    · simp only [dlookup, if_neg hk] at h
      exact List.mem_cons_of_mem _ (ih h)

/-! ### Fold lemmas for the room dictionaries -/

theorem dlookup_foldl_dset_not_mem {β : Type} (idf : β → String)
    (g : β → JsonV) (xs : List β) (acc : SDict) (k : String)
    (h : k ∉ xs.map idf) :
    dlookup k (xs.foldl (fun a x => dset a (idf x) (g x)) acc) =
      dlookup k acc := by
  induction xs generalizing acc with
  | nil => rfl
  | cons x rest ih =>
    simp only [List.map_cons, List.mem_cons] at h
    push_neg at h
    simp only [List.foldl_cons]
    rw [ih _ h.2, dlookup_dset_ne _ _ _ _ h.1]

theorem dlookup_foldl_dset {β : Type} (idf : β → String) (g : β → JsonV)
    (xs : List β) (acc : SDict) (r : β) (hmem : r ∈ xs)
    (hnd : (xs.map idf).Nodup) :
    dlookup (idf r) (xs.foldl (fun a x => dset a (idf x) (g x)) acc) =
      some (g r) := by
  induction xs generalizing acc with
  | nil => cases hmem
  | cons x rest ih =>
    simp only [List.map_cons, List.nodup_cons] at hnd
    rcases List.mem_cons.mp hmem with h | h
    · subst h
      simp only [List.foldl_cons]
      rw [dlookup_foldl_dset_not_mem _ _ _ _ _ hnd.1, dlookup_dset_self]
    · simp only [List.foldl_cons]
      exact ih _ h hnd.2

/-! ### Claim theorems -/

/-- C4: every request that supplies the legacy query parameter `from`
is rejected — with a 400 error whose message instructs the caller to
use `since` — before any other processing: the result is a constant
independent of every collaborator and the effect trace is empty. -/
theorem c4_legacy_from_rejected (O : Oracles) (req : Request) (v : String)
    (h : lookupArg req "from" = some v) :
    on_GET O req =
      (.error ⟨.invalidParameter, 400,
        "'from' is not a valid query parameter. Did you mean 'since'?"⟩,
       []) := by
  simp [on_GET, hasArg, h]

theorem c4_witness :
    lookupArg ⟨[("from", "0"), ("since", "1_2")]⟩ "from" = some "0" ∧
    on_GET sampleOracles ⟨[("from", "0"), ("since", "1_2")]⟩ =
      (.error ⟨.invalidParameter, 400,
        "'from' is not a valid query parameter. Did you mean 'since'?"⟩,
       []) :=
  ⟨rfl, c4_legacy_from_rejected sampleOracles
    ⟨[("from", "0"), ("since", "1_2")]⟩ "0" rfl⟩

/-- C5: a request whose `filter` parameter starts with `{` but fails
JSON parsing is rejected with the 400 "Invalid filter JSON" error, and
its effect trace contains no stream work (no presence hook, no sync
computation). -/
theorem c5_invalid_filter_json (O : Oracles) (req : Request)
    (rq : Requester) (t : Int) (sp : String) (fs : Bool) (s : String)
    (h_from : lookupArg req "from" = none)
    (h_auth : O.auth = .ok rq)
    (h_t : parse_integer req "timeout" 0 = .ok t)
    (h_sp : parse_string_allowed req "set_presence" "online"
      ALLOWED_PRESENCE = .ok sp)
    (h_fs : parse_boolean req "full_state" false = .ok fs)
    (h_f : lookupArg req "filter" = some s)
    (h_ne : s ≠ "")
    (h_br : startsWithBrace s = true)
    (h_json : O.jsonLoads s = none) :
    on_GET O req =
      (.error ⟨.invalidParameter, 400, "Invalid filter JSON"⟩,
       [.authCheck, .jsonParse s]) ∧
    Effect.startedStream ∉ (on_GET O req).2 ∧
    Effect.syncCompute ∉ (on_GET O req).2 := by
  have hmain : on_GET O req =
      (.error ⟨.invalidParameter, 400, "Invalid filter JSON"⟩,
       [.authCheck, .jsonParse s]) := by
    simp [on_GET, hasArg, h_from, h_auth, h_t, h_sp, h_fs,
      resolve_filter, h_f, h_ne, h_br, h_json]
  refine ⟨hmain, ?_, ?_⟩ <;> rw [hmain] <;> simp

theorem c5_witness :
    on_GET sampleOracles ⟨[("filter", "\x7bnot json")]⟩ =
      (.error ⟨.invalidParameter, 400, "Invalid filter JSON"⟩,
       [.authCheck, .jsonParse "\x7bnot json"]) :=
  (c5_invalid_filter_json sampleOracles ⟨[("filter", "\x7bnot json")]⟩
    ⟨⟨"alice"⟩, false, some 7⟩ 0 "online" false "\x7bnot json"
    rfl rfl rfl rfl rfl rfl (by decide) (by decide) rfl).1

theorem encode_joined_fst (ser : EventE → Int → Option Nat → SDict)
    (rooms : List RoomResult) (tn : Int) (tid : Option Nat) :
    (encode_joined ser rooms tn tid).1 =
      rooms.foldl (fun a x =>
        dset a x.room_id (JsonV.obj (encode_room ser x tn tid true).1)) [] := by
  show (rooms.foldl _ ((⟨[], []⟩ : SDict × List Effect))).1 = _
  generalize hacc : ((⟨[], []⟩ : SDict × List Effect)) = acc
  have h : acc.1 = ([] : SDict) := by rw [← hacc]
  rw [← h]; clear hacc h
  induction rooms generalizing acc with
  | nil => rfl
  | cons x rest ih => exact ih _

theorem encode_archived_fst (ser : EventE → Int → Option Nat → SDict)
    (rooms : List RoomResult) (tn : Int) (tid : Option Nat) :
    (encode_archived ser rooms tn tid).1 =
      rooms.foldl (fun a x =>
        dset a x.room_id (JsonV.obj (encode_room ser x tn tid false).1)) [] := by
  show (rooms.foldl _ ((⟨[], []⟩ : SDict × List Effect))).1 = _
  generalize hacc : ((⟨[], []⟩ : SDict × List Effect)) = acc
  have h : acc.1 = ([] : SDict) := by rw [← hacc]
  rw [← h]; clear hacc h
  induction rooms generalizing acc with
  | nil => rfl
  | cons x rest ih => exact ih _

/-- C6: a room's encoded delta carries `ephemeral` and
`unread_notifications` exactly when it is encoded as joined: the
joined encoding's keys are timeline/state/account_data plus the two
joined-only fields, the archived encoding's keys are exactly
timeline/state/account_data, and `encode_joined` / `encode_archived`
produce precisely those encodings for every room. -/
theorem c6_ephemeral_only_for_joined (ser : EventE → Int → Option Nat → SDict)
    (tn : Int) (tid : Option Nat) :
    (∀ room : RoomResult,
      dkeys (encode_room ser room tn tid true).1 =
        ["timeline", "state", "account_data", "ephemeral",
         "unread_notifications"] ∧
      dkeys (encode_room ser room tn tid false).1 =
        ["timeline", "state", "account_data"]) ∧
    (∀ (rooms : List RoomResult) (r : RoomResult),
      (rooms.map RoomResult.room_id).Nodup → r ∈ rooms →
      dlookup r.room_id (encode_joined ser rooms tn tid).1 =
        some (.obj (encode_room ser r tn tid true).1) ∧
      dlookup r.room_id (encode_archived ser rooms tn tid).1 =
        some (.obj (encode_room ser r tn tid false).1)) := by
  constructor
  · intro room
    constructor <;> simp [encode_room, dkeys, dset]
  · intro rooms r hnd hmem
    constructor
    · rw [encode_joined_fst]
      exact dlookup_foldl_dset RoomResult.room_id _ rooms [] r hmem hnd
    · rw [encode_archived_fst]
      exact dlookup_foldl_dset RoomResult.room_id _ rooms [] r hmem hnd

theorem c6_witness :
    ([sampleRoom].map RoomResult.room_id).Nodup ∧
    dlookup sampleRoom.room_id
        (encode_joined sampleOracles.ser [sampleRoom] 1000 (some 7)).1 =
      some (.obj (encode_room sampleOracles.ser sampleRoom 1000 (some 7) true).1) ∧
    dlookup sampleRoom.room_id
        (encode_archived sampleOracles.ser [sampleRoom] 1000 (some 7)).1 =
      some (.obj (encode_room sampleOracles.ser sampleRoom 1000 (some 7) false).1) :=
  have hnd : ([sampleRoom].map RoomResult.room_id).Nodup := by decide
  ⟨hnd, (c6_ephemeral_only_for_joined sampleOracles.ser 1000 (some 7)).2
    [sampleRoom] sampleRoom hnd (List.mem_singleton.mpr rfl)⟩

/-- C8: an event filed under a different room id than its delta's
room produces a logged data-integrity warning, its serialization is
still part of the output, and the encoded room still carries the full
serialized timeline and state (assembly never fails on the
mismatch). -/
theorem c8_roomid_mismatch_logged (ser : EventE → Int → Option Nat → SDict)
    (room : RoomResult) (tn : Int) (tid : Option Nat) (joined : Bool)
    (e : EventE)
    (hmem : e ∈ room.state.map Prod.snd ++ room.timeline.events)
    (hne : e.room_id ≠ room.room_id) :
    Effect.logWarn e.event_id room.room_id e.room_id ∈
      (encode_room ser room tn tid joined).2 ∧
    JsonV.obj (ser e tn tid) ∈
      (room.state.map Prod.snd).map (fun ev => JsonV.obj (ser ev tn tid)) ++
        room.timeline.events.map (fun ev => JsonV.obj (ser ev tn tid)) ∧
    dlookup "timeline" (encode_room ser room tn tid joined).1 =
      some (.obj [("events", .arr (room.timeline.events.map
                    (fun ev => JsonV.obj (ser ev tn tid)))),
                  ("prev_batch", .str room.timeline.prev_batch.to_string),
                  ("limited", .bool room.timeline.limited)]) ∧
    dlookup "state" (encode_room ser room tn tid joined).1 =
      some (.obj [("events", .arr ((room.state.map Prod.snd).map
                    (fun ev => JsonV.obj (ser ev tn tid))))]) := by
  refine ⟨?_, ?_, ?_, ?_⟩
  · simp only [encode_room]
    exact List.mem_filterMap.mpr ⟨e, hmem, by simp [hne]⟩
  · rcases List.mem_append.mp hmem with h | h
    · exact List.mem_append_left _ (List.mem_map_of_mem _ h)
    · exact List.mem_append_right _ (List.mem_map_of_mem _ h)
  · cases joined <;> simp [encode_room, dset, dlookup]
  · cases joined <;> simp [encode_room, dset, dlookup]

theorem c8_witness :
    (⟨"$s1", "!other:hs", []⟩ : EventE) ∈
      sampleRoom.state.map Prod.snd ++ sampleRoom.timeline.events ∧
    Effect.logWarn "$s1" "!r:hs" "!other:hs" ∈
      (encode_room sampleOracles.ser sampleRoom 1000 (some 7) true).2 :=
  have hmem : (⟨"$s1", "!other:hs", []⟩ : EventE) ∈
      sampleRoom.state.map Prod.snd ++ sampleRoom.timeline.events := by
    simp [sampleRoom]
  ⟨hmem, (c8_roomid_mismatch_logged sampleOracles.ser sampleRoom 1000 (some 7)
    true ⟨"$s1", "!other:hs", []⟩ hmem (by decide)).1⟩

/-- C3: every invited room's `invite_state.events` is the bundled
stripped preview state followed by — as its final entry — the
serialized invite event itself (whose `unsigned` is the shallow copy
with the bundled preview popped out). -/
theorem c3_invite_state_events_order (ser : EventE → Int → Option Nat → SDict)
    (tn : Int) (tid : Option Nat) (rooms : List InvitedRoom)
    (room : InvitedRoom) (u : SDict) (stripped : List JsonV)
    (hnd : (rooms.map InvitedRoom.room_id).Nodup) (hmem : room ∈ rooms)
    (hu : dlookup "unsigned" (ser room.invite tn tid) = some (.obj u))
    (hs : dlookup "invite_room_state" u = some (.arr stripped)) :
    dlookup room.room_id (encode_invited ser rooms tn tid) =
      some (.obj [("invite_state", .obj [("events",
        .arr (stripped ++ [.obj (dset (ser room.invite tn tid) "unsigned"
          (.obj (derase u "invite_room_state")))]))])]) := by
  have h := dlookup_foldl_dset InvitedRoom.room_id
    (fun r => encode_invited_room ser r tn tid) rooms [] room hmem hnd
  rw [show encode_invited ser rooms tn tid =
    rooms.foldl (fun a x =>
      dset a x.room_id (encode_invited_room ser x tn tid)) [] from rfl]
  rw [h]
  simp [encode_invited_room, hu, hs, asDict, asList]

theorem c3_witness :
    dlookup sampleInvite.room_id
        (encode_invited sampleInviteSer [sampleInvite] 1000 (some 7)) =
      some (.obj [("invite_state", .obj [("events",
        .arr ([.obj [("type", .str "m.room.name")]] ++
          [.obj (dset (sampleInviteSer sampleInvite.invite 1000 (some 7))
            "unsigned"
            (.obj (derase [("invite_room_state",
              .arr [.obj [("type", .str "m.room.name")]])]
              "invite_room_state")))]))])]) :=
  c3_invite_state_events_order sampleInviteSer 1000 (some 7) [sampleInvite]
    sampleInvite
    [("invite_room_state", .arr [.obj [("type", .str "m.room.name")]])]
    [.obj [("type", .str "m.room.name")]]
    (by decide) (List.mem_singleton.mpr rfl) rfl rfl

theorem formatPresenceList_spec (events : List SDict)
    (h : ∀ e ∈ events, ∃ c uid, dlookup "content" e = some (JsonV.obj c) ∧
      dlookup "user_id" c = some uid ∧ (dkeys c).Nodup) :
    ∃ formatted, formatPresenceList events = .ok formatted ∧
      List.Forall₂ presenceMoved events formatted := by
  induction events with
  | nil => exact ⟨[], rfl, .nil⟩
  | cons ev rest ih =>
    obtain ⟨c, uid, hc, hu, hndc⟩ := h ev (List.mem_cons_self _ _)
    obtain ⟨fs, hfs, hrel⟩ := ih (fun e he => h e (List.mem_cons_of_mem _ he))
    refine ⟨JsonV.obj (dset (dset ev "content" (.obj (derase c "user_id")))
      "sender" uid) :: fs, ?_, .cons ?_ hrel⟩
    · simp [formatPresenceList, format_presence_event, hc, hu, hfs]
    · refine ⟨c, uid, _, hc, hu, rfl, dlookup_dset_self _ _ _, ?_, ?_⟩
      · rw [dlookup_dset_ne _ _ _ _ (by decide)]
        exact dlookup_dset_self _ _ _
      · exact dlookup_derase_none _ _ hndc

/-- C7: when every presence event carries its acting user's id inside
`content`, encoding succeeds, the result wraps the transformed events
under an `events` key, and each encoded event has the user id moved
from `content.user_id` to the outer `sender`. -/
theorem c7_presence_sender_moved (events : List SDict) (tn : Int)
    (h : ∀ e ∈ events, ∃ c uid, dlookup "content" e = some (JsonV.obj c) ∧
      dlookup "user_id" c = some uid ∧ (dkeys c).Nodup) :
    ∃ formatted, encode_presence events tn =
        .ok (.obj [("events", .arr formatted)]) ∧
      List.Forall₂ presenceMoved events formatted := by
  obtain ⟨fs, hfs, hrel⟩ := formatPresenceList_spec events h
  exact ⟨fs, by simp [encode_presence, hfs], hrel⟩

theorem c7_witness :
    ∃ formatted, encode_presence [samplePresenceEvent] 1000 =
        .ok (.obj [("events", .arr formatted)]) ∧
      List.Forall₂ presenceMoved [samplePresenceEvent] formatted :=
  c7_presence_sender_moved [samplePresenceEvent] 1000 (by
    intro e he
    rw [List.mem_singleton] at he
    subst he
    exact ⟨[("user_id", .str "@alice:hs"), ("presence", .str "online")],
      .str "@alice:hs", rfl, rfl, by decide⟩)

/-! ### Trace-shape lemmas for the handler claims -/

theorem resolve_filter_effects (O : Oracles) (lp : String)
    (fid : Option String) :
    ∀ e ∈ (resolve_filter O lp fid).2,
      e ≠ Effect.startedStream ∧ e ≠ Effect.stoppedStream ∧
      e ≠ Effect.syncCompute := by
  intro e he
  rcases fid with _ | s
  · simp [resolve_filter] at he
  · by_cases h1 : s = ""
    · simp [resolve_filter, h1] at he
    · by_cases h2 : startsWithBrace s
      · cases hjl : O.jsonLoads s with
        | none =>
          simp [resolve_filter, h1, h2, hjl] at he
          subst he; exact ⟨by simp, by simp, by simp⟩
        | some fo =>
          cases hcv : O.checkValidFilter fo with
          | error err =>
            simp [resolve_filter, h1, h2, hjl, hcv] at he
            subst he; exact ⟨by simp, by simp, by simp⟩
          | ok u =>
            simp [resolve_filter, h1, h2, hjl, hcv] at he
            subst he; exact ⟨by simp, by simp, by simp⟩
      · simp [resolve_filter, h1, h2] at he
        subst he; exact ⟨by simp, by simp, by simp⟩

theorem resolve_filter_no_store (O : Oracles) (lp : String)
    (fid : Option String)
    (h : ∀ s, fid = some s → s = "" ∨ startsWithBrace s = true) :
    ∀ l f, Effect.filterStoreLookup l f ∉ (resolve_filter O lp fid).2 := by
  intro l f hmem
  rcases fid with _ | s
  · simp [resolve_filter] at hmem
  · rcases h s rfl with h1 | h1
    · simp [resolve_filter, h1] at hmem
    · by_cases h0 : s = ""
      · simp [resolve_filter, h0] at hmem
      · cases hjl : O.jsonLoads s with
        | none => simp [resolve_filter, h0, h1, hjl] at hmem
        | some fo =>
          cases hcv : O.checkValidFilter fo with
          | error err => simp [resolve_filter, h0, h1, hjl, hcv] at hmem
          | ok u => simp [resolve_filter, h0, h1, hjl, hcv] at hmem

theorem encode_room_warn (ser : EventE → Int → Option Nat → SDict)
    (room : RoomResult) (tn : Int) (tid : Option Nat) (j : Bool) :
    ∀ w ∈ (encode_room ser room tn tid j).2,
      ∃ a b c, w = Effect.logWarn a b c := by
  intro w hw
  simp only [encode_room] at hw
  obtain ⟨e, _, hres⟩ := List.mem_filterMap.mp hw
  split at hres
  · exact ⟨_, _, _, (Option.some.inj hres).symm⟩
  · cases hres

theorem encode_fold_warn_aux (ser : EventE → Int → Option Nat → SDict)
    (tn : Int) (tid : Option Nat) (j : Bool) :
    ∀ (rooms : List RoomResult) (acc : SDict × List Effect),
      (∀ w ∈ acc.2, ∃ a b c, w = Effect.logWarn a b c) →
      ∀ w ∈ (rooms.foldl (fun a room =>
          (dset a.1 room.room_id (JsonV.obj (encode_room ser room tn tid j).1),
           a.2 ++ (encode_room ser room tn tid j).2)) acc).2,
        ∃ a b c, w = Effect.logWarn a b c := by
  intro rooms
  induction rooms with
  | nil => intro acc hacc w hw; exact hacc w hw
  | cons x rest ih =>
    intro acc hacc w hw
    refine ih _ ?_ w hw
    intro w' hw'
    rcases List.mem_append.mp hw' with hmem | hmem
    · exact hacc w' hmem
    · exact encode_room_warn ser x tn tid j w' hmem

theorem encode_joined_warn (ser : EventE → Int → Option Nat → SDict)
    (rooms : List RoomResult) (tn : Int) (tid : Option Nat) :
    ∀ w ∈ (encode_joined ser rooms tn tid).2,
      ∃ a b c, w = Effect.logWarn a b c :=
  encode_fold_warn_aux ser tn tid true rooms ⟨[], []⟩ (by simp)

theorem encode_archived_warn (ser : EventE → Int → Option Nat → SDict)
    (rooms : List RoomResult) (tn : Int) (tid : Option Nat) :
    ∀ w ∈ (encode_archived ser rooms tn tid).2,
      ∃ a b c, w = Effect.logWarn a b c :=
  encode_fold_warn_aux ser tn tid false rooms ⟨[], []⟩ (by simp)

/-- C1: for a sync request with `set_presence` resolved to `online`
that reaches the sync stage, the trace acquires the presence hook
(`startedStream`) immediately before the sync computation, and
releases it (`stoppedStream`) exactly once — the trace decomposes
around `[startedStream, syncCompute, stoppedStream]` with no other
`stoppedStream` occurrence — for every outcome of the sync
computation, success or error. -/
theorem c1_presence_hook_pairing (O : Oracles) (req : Request)
    (rq : Requester) (t : Int) (fs : Bool) (fc : FilterCollection)
    (ftr : List Effect) (st : Option StreamToken)
    (h_from : lookupArg req "from" = none)
    (h_auth : O.auth = .ok rq)
    (h_t : parse_integer req "timeout" 0 = .ok t)
    (h_sp : parse_string_allowed req "set_presence" "online"
      ALLOWED_PRESENCE = .ok "online")
    (h_fs : parse_boolean req "full_state" false = .ok fs)
    (h_res : resolve_filter O rq.user.localpart (lookupArg req "filter") =
      (.ok fc, ftr))
    (h_since : parse_since_token (lookupArg req "since") = .ok st) :
    ∃ A B, (on_GET O req).2 =
        A ++ [.startedStream, .syncCompute, .stoppedStream] ++ B ∧
      Effect.stoppedStream ∉ A ∧ Effect.stoppedStream ∉ B := by
  have hftr : ∀ e ∈ ftr, e ≠ Effect.startedStream ∧
      e ≠ Effect.stoppedStream ∧ e ≠ Effect.syncCompute := by
    have h := resolve_filter_effects O rq.user.localpart
      (lookupArg req "filter")
    rw [h_res] at h
    exact h
  have hnotA : Effect.stoppedStream ∉ Effect.authCheck :: ftr := by
    intro hmem
    rcases List.mem_cons.mp hmem with h | h
    · cases h
    · exact (hftr _ h).2.1 rfl
  simp only [on_GET, hasArg, h_from, Option.isSome_none, Bool.false_eq_true,
    if_false, h_auth, h_t, h_sp, h_fs, h_res, h_since]
  cases hw : O.wait_for_sync ⟨rq.user, fc, rq.is_guest⟩ st t fs with
  | error e =>
    refine ⟨Effect.authCheck :: ftr, [], ?_, hnotA, by simp⟩
    simp
  | ok sr =>
    cases hp : encode_presence sr.presence O.clock with
    | error e =>
      refine ⟨Effect.authCheck :: ftr,
        (encode_joined O.ser sr.joined O.clock rq.access_token_id).2 ++
          (encode_archived O.ser sr.archived O.clock rq.access_token_id).2,
        by simp [hp], hnotA, ?_⟩
      intro hmem
      rcases List.mem_append.mp hmem with h | h
      · obtain ⟨a, b, c, habc⟩ := encode_joined_warn _ _ _ _ _ h
        cases habc
      · obtain ⟨a, b, c, habc⟩ := encode_archived_warn _ _ _ _ _ h
        cases habc
    | ok pj =>
      refine ⟨Effect.authCheck :: ftr,
        (encode_joined O.ser sr.joined O.clock rq.access_token_id).2 ++
          (encode_archived O.ser sr.archived O.clock rq.access_token_id).2,
        by simp [hp], hnotA, ?_⟩
      intro hmem
      rcases List.mem_append.mp hmem with h | h
      · obtain ⟨a, b, c, habc⟩ := encode_joined_warn _ _ _ _ _ h
        cases habc
      · obtain ⟨a, b, c, habc⟩ := encode_archived_warn _ _ _ _ _ h
        cases habc

theorem c1_witness :
    ∃ A B, (on_GET sampleOracles ⟨[]⟩).2 =
        A ++ [.startedStream, .syncCompute, .stoppedStream] ++ B ∧
      Effect.stoppedStream ∉ A ∧ Effect.stoppedStream ∉ B :=
  c1_presence_hook_pairing sampleOracles ⟨[]⟩ ⟨⟨"alice"⟩, false, some 7⟩
    0 false .default [] none rfl rfl rfl rfl rfl rfl rfl

/-! ### Request-argument lemmas for the empty-filter claim -/

theorem lookupArg_eraseArg_self (req : Request) (name : String) :
    lookupArg (eraseArg req name) name = none := by
  simp only [lookupArg, eraseArg]
  induction req.args with
  | nil => rfl
  | cons p rest ih =>
    obtain ⟨k, v⟩ := p
    by_cases hk : k = name
    · simp [List.filter_cons, hk, ih]
    · simp [List.filter_cons, List.find?_cons, hk, ih]

theorem lookupArg_eraseArg_ne (req : Request) (name n : String)
    (h : n ≠ name) :
    lookupArg (eraseArg req name) n = lookupArg req n := by
  have hnn : ¬name = n := fun hh => h hh.symm
  simp only [lookupArg, eraseArg]
  induction req.args with
  | nil => rfl
  | cons p rest ih =>
    obtain ⟨k, v⟩ := p
    by_cases hk : k = name
    · subst hk
      simpa [List.filter_cons, List.find?_cons, hnn] using ih
    · by_cases hkn : k = n
      · subst hkn
        simp [List.filter_cons, List.find?_cons, hk]
      · simpa [List.filter_cons, List.find?_cons, hk, hkn] using ih

/-- C10: a request whose `filter` parameter is the empty string
behaves exactly like the same request without a `filter` parameter:
the handler's result and trace coincide, and in both cases filter
resolution yields the default filter collection with an empty effect
trace — so neither inline-JSON parsing nor a filter-store lookup is
attempted. -/
theorem c10_empty_filter_is_default (O : Oracles) (req : Request)
    (h : lookupArg req "filter" = some "") :
    on_GET O req = on_GET O (eraseArg req "filter") ∧
    (∀ lp, resolve_filter O lp (some "") = (.ok .default, []) ∧
      resolve_filter O lp none = (.ok .default, [])) := by
  refine ⟨?_, fun lp => ⟨rfl, rfl⟩⟩
  have e_from : lookupArg (eraseArg req "filter") "from" =
      lookupArg req "from" := lookupArg_eraseArg_ne _ _ _ (by decide)
  have e_t : parse_integer (eraseArg req "filter") "timeout" 0 =
      parse_integer req "timeout" 0 := by
    unfold parse_integer
    rw [lookupArg_eraseArg_ne _ _ _ (by decide)]
  have e_since : lookupArg (eraseArg req "filter") "since" =
      lookupArg req "since" := lookupArg_eraseArg_ne _ _ _ (by decide)
  have e_sp : parse_string_allowed (eraseArg req "filter") "set_presence"
      "online" ALLOWED_PRESENCE =
      parse_string_allowed req "set_presence" "online" ALLOWED_PRESENCE := by
    unfold parse_string_allowed
    rw [lookupArg_eraseArg_ne _ _ _ (by decide)]
  have e_fs : parse_boolean (eraseArg req "filter") "full_state" false =
      parse_boolean req "full_state" false := by
    unfold parse_boolean
    rw [lookupArg_eraseArg_ne _ _ _ (by decide)]
  have e_filter : lookupArg (eraseArg req "filter") "filter" = none :=
    lookupArg_eraseArg_self _ _
  have r1 : ∀ lp, resolve_filter O lp (some "") = (.ok .default, []) :=
    fun lp => rfl
  have r2 : ∀ lp, resolve_filter O lp none = (.ok .default, []) :=
    fun lp => rfl
  simp only [on_GET, hasArg, e_from, e_t, e_since, e_sp, e_fs, e_filter, h,
    r1, r2]

theorem c10_witness :
    on_GET sampleOracles ⟨[("filter", ""), ("timeout", "5")]⟩ =
      on_GET sampleOracles
        (eraseArg ⟨[("filter", ""), ("timeout", "5")]⟩ "filter") ∧
    resolve_filter sampleOracles "alice" (some "") =
      (.ok .default, []) :=
  ⟨(c10_empty_filter_is_default sampleOracles
      ⟨[("filter", ""), ("timeout", "5")]⟩ rfl).1,
   ((c10_empty_filter_is_default sampleOracles
      ⟨[("filter", ""), ("timeout", "5")]⟩ rfl).2 "alice").1⟩

/-- C2, counterexample: the claim asserts that a malformed `since`
token fails with the dedicated checkpoint error *and* that no store
access is attempted before the failure.  On a request that also names
a stored filter, the handler performs the filter-store lookup (lines
124–127) before parsing `since` (line 138), so a store access does
precede the failure. -/
theorem c2_counterexample :
    (on_GET sampleOracles
        ⟨[("since", "garbage"), ("filter", "myfilter")]⟩).1 =
      .error ⟨.invalidCheckpoint, 400, "Invalid stream token"⟩ ∧
    Effect.filterStoreLookup "alice" "myfilter" ∈
      (on_GET sampleOracles
        ⟨[("since", "garbage"), ("filter", "myfilter")]⟩).2 := by
  constructor
  · rfl
  · show Effect.filterStoreLookup "alice" "myfilter" ∈
      [Effect.authCheck, Effect.filterStoreLookup "alice" "myfilter"]
    simp

/-- C2, amended: for a request with a malformed `since` token that
passes the earlier parameter checks and whose `filter` parameter (if
any) is empty or inline JSON — so it names no stored filter — the
request fails with the dedicated `invalidCheckpoint` error kind
(never a silent default), and no filter-store access, presence-hook
acquisition, or sync computation is attempted. -/
theorem c2_invalid_checkpoint (O : Oracles) (req : Request)
    (rq : Requester) (t : Int) (sp : String) (fs : Bool)
    (fc : FilterCollection) (ftr : List Effect) (str : String)
    (h_from : lookupArg req "from" = none)
    (h_auth : O.auth = .ok rq)
    (h_t : parse_integer req "timeout" 0 = .ok t)
    (h_sp : parse_string_allowed req "set_presence" "online"
      ALLOWED_PRESENCE = .ok sp)
    (h_fs : parse_boolean req "full_state" false = .ok fs)
    (h_nostored : ∀ s, lookupArg req "filter" = some s →
      s = "" ∨ startsWithBrace s = true)
    (h_res : resolve_filter O rq.user.localpart (lookupArg req "filter") =
      (.ok fc, ftr))
    (h_since : lookupArg req "since" = some str)
    (h_bad : StreamToken.from_string str = none) :
    (on_GET O req).1 =
      .error ⟨.invalidCheckpoint, 400, "Invalid stream token"⟩ ∧
    (∀ l f, Effect.filterStoreLookup l f ∉ (on_GET O req).2) ∧
    Effect.startedStream ∉ (on_GET O req).2 ∧
    Effect.syncCompute ∉ (on_GET O req).2 := by
  have hmain : on_GET O req =
      (.error ⟨.invalidCheckpoint, 400, "Invalid stream token"⟩,
       .authCheck :: ftr) := by
    simp [on_GET, hasArg, h_from, h_auth, h_t, h_sp, h_fs, h_res,
      parse_since_token, h_since, h_bad]
  have hstore := resolve_filter_no_store O rq.user.localpart
    (lookupArg req "filter") h_nostored
  rw [h_res] at hstore
  have heff := resolve_filter_effects O rq.user.localpart
    (lookupArg req "filter")
  rw [h_res] at heff
  rw [hmain]
  refine ⟨rfl, ?_, ?_, ?_⟩
  · intro l f hmem
    rcases List.mem_cons.mp hmem with hh | hh
    · cases hh
    · exact hstore l f hh
  · intro hmem
    rcases List.mem_cons.mp hmem with hh | hh
    · cases hh
    · exact (heff _ hh).1 rfl
  · intro hmem
    rcases List.mem_cons.mp hmem with hh | hh
    · cases hh
    · exact (heff _ hh).2.2 rfl

theorem c2_witness :
    (on_GET sampleOracles ⟨[("since", "garbage")]⟩).1 =
      .error ⟨.invalidCheckpoint, 400, "Invalid stream token"⟩ ∧
    Effect.startedStream ∉ (on_GET sampleOracles ⟨[("since", "garbage")]⟩).2 :=
  have h := c2_invalid_checkpoint sampleOracles ⟨[("since", "garbage")]⟩
    ⟨⟨"alice"⟩, false, some 7⟩ 0 "online" false .default [] "garbage"
    rfl rfl rfl rfl rfl (fun s hs => by cases hs) rfl rfl rfl
  ⟨h.1, h.2.2.1⟩

/-! ### Heap lemmas for the deep-copy frame claim -/

theorem hfind_hstore_ne (l : List (Nat × PyDict)) (a b : Nat) (d : PyDict)
    (h : b ≠ a) : hfind (hstore l a d) b = hfind l b := by
  induction l with
  | nil => rfl
  | cons p rest ih =>
    obtain ⟨k, v⟩ := p
    by_cases hk : k = a
    · subst hk
      simp [hstore, hfind, Ne.symm h]
    · by_cases hkb : k = b
      · simp [hstore, hfind, hk, hkb, h]
      · simp [hstore, hfind, hk, hkb, ih]

theorem Heap.get_set_ne (σ : Heap) (a b : Nat) (d : PyDict) (h : b ≠ a) :
    (σ.set a d).get b = σ.get b :=
  hfind_hstore_ne σ.mem a b d h

theorem Heap.next_set (σ : Heap) (a : Nat) (d : PyDict) :
    (σ.set a d).next = σ.next := rfl

theorem hstore_keys (l : List (Nat × PyDict)) (a : Nat) (d : PyDict) :
    ∀ q ∈ hstore l a d, ∃ r ∈ l, q.1 = r.1 := by
  induction l with
  | nil => intro q hq; cases hq
  | cons x rest ih =>
    intro q hq
    obtain ⟨k, v⟩ := x
    by_cases hk : k = a
    · rw [hstore, if_pos hk] at hq
      rcases List.mem_cons.mp hq with hh | hh
      · exact ⟨(k, v), List.mem_cons_self _ _, by rw [hh]⟩
      · exact ⟨q, List.mem_cons_of_mem _ hh, rfl⟩
    · rw [hstore, if_neg hk] at hq
      rcases List.mem_cons.mp hq with hh | hh
      · exact ⟨(k, v), List.mem_cons_self _ _, by rw [hh]⟩
      · obtain ⟨r, hr, he⟩ := ih q hh
        exact ⟨r, List.mem_cons_of_mem _ hr, he⟩

theorem Heap.wf_set (σ : Heap) (a : Nat) (d : PyDict) (hwf : σ.wf) :
    (σ.set a d).wf := by
  intro p hp
  obtain ⟨r, hr, he⟩ := hstore_keys σ.mem a d p hp
  rw [Heap.next_set, he]
  exact hwf r hr

theorem Heap.next_alloc (σ : Heap) (d : PyDict) :
    ((σ.alloc d).1).next = σ.next + 1 := rfl

theorem Heap.get_alloc_ne (σ : Heap) (d : PyDict) (b : Nat)
    (h : b ≠ σ.next) : ((σ.alloc d).1).get b = σ.get b := by
  show hfind (σ.mem ++ [(σ.next, d)]) b = hfind σ.mem b
  induction σ.mem with
  | nil => simp [hfind, Ne.symm h]
  | cons p rest ih =>
    obtain ⟨k, v⟩ := p
    by_cases hk : k = b
    · simp [hfind, hk]
    · simp [hfind, hk, ih]

theorem hfind_append_fresh (l : List (Nat × PyDict)) (n : Nat) (d : PyDict)
    (h : ∀ q ∈ l, q.1 < n) : hfind (l ++ [(n, d)]) n = some d := by
  induction l with
  | nil => simp [hfind]
  | cons p rest ih =>
    obtain ⟨k, v⟩ := p
    have hk : k ≠ n := Nat.ne_of_lt (h (k, v) (List.mem_cons_self _ _))
    simp only [List.cons_append, hfind, if_neg hk]
    exact ih (fun q hq => h q (List.mem_cons_of_mem _ hq))

theorem Heap.get_alloc_self (σ : Heap) (d : PyDict) (hwf : σ.wf) :
    ((σ.alloc d).1).get σ.next = some d :=
  hfind_append_fresh σ.mem σ.next d hwf

theorem Heap.wf_alloc (σ : Heap) (d : PyDict) (hwf : σ.wf) :
    ((σ.alloc d).1).wf := by
  intro p hp
  rw [Heap.next_alloc]
  rcases List.mem_append.mp hp with hh | hh
  · exact Nat.lt_succ_of_lt (hwf p hh)
  · rw [List.mem_singleton.mp hh]
    exact Nat.lt_succ_self _

/-- The deep-copy invariants: `deepcopyGo` preserves well-formedness,
only grows the heap, leaves every previously allocated address
untouched, and every address it hands back — the copy's own address
and every reference inside copied entries — is freshly allocated
(at or above the starting `next`, below the final `next`). -/
theorem deepcopyGo_spec (fuel : Nat) :
    ∀ (σ : Heap) (t : CopyArg) (σ' : Heap) (r : CopyOut), σ.wf →
      deepcopyGo fuel σ t = some (σ', r) →
      σ'.wf ∧ σ.next ≤ σ'.next ∧ (∀ b, b < σ.next → σ'.get b = σ.get b) ∧
      (∀ a', r = .addr a' → σ.next ≤ a' ∧ a' < σ'.next ∧
        ∃ d', σ'.get a' = some d' ∧
          ∀ k b, (k, PyVal.ref b) ∈ d' → σ.next ≤ b ∧ b < σ'.next) ∧
      (∀ d', r = .entries d' →
        ∀ k b, (k, PyVal.ref b) ∈ d' → σ.next ≤ b ∧ b < σ'.next) := by
  induction fuel with
  | zero =>
    intro σ t σ' r hwf h
    simp [deepcopyGo] at h
  | succ fuel ih =>
    intro σ t σ' r hwf h
    cases t with
    | addr a =>
      cases hg : σ.get a with
      | none => simp [deepcopyGo, hg] at h
      | some d =>
        simp only [deepcopyGo, hg] at h
        cases hrec : deepcopyGo fuel σ (.entries d) with
        | none => simp [hrec] at h
        | some p =>
          obtain ⟨σ₁, r₁⟩ := p
          cases r₁ with
          | addr a₁ => simp [hrec] at h
          | entries d' =>
            simp only [hrec, Option.some.injEq, Prod.mk.injEq] at h
            obtain ⟨hσ, hr⟩ := h
            subst hσ
            subst hr
            obtain ⟨hwf₁, hmono₁, hframe₁, _, hents₁⟩ :=
              ih σ (.entries d) σ₁ (.entries d') hwf hrec
            have hents := hents₁ d' rfl
            refine ⟨Heap.wf_alloc σ₁ d' hwf₁, ?_, ?_, ?_, ?_⟩
            · rw [Heap.next_alloc]; omega
            · intro b hb
              rw [Heap.get_alloc_ne σ₁ d' b (by omega)]
              exact hframe₁ b hb
            · intro a' ha'
              injection ha' with ha''
              subst ha''
              refine ⟨hmono₁, by rw [Heap.next_alloc]; omega, d',
                Heap.get_alloc_self σ₁ d' hwf₁, ?_⟩
              intro k b hkb
              obtain ⟨h1, h2⟩ := hents k b hkb
              exact ⟨h1, by rw [Heap.next_alloc]; omega⟩
            · intro d'' hd''
              nomatch hd''
    | entries d0 =>
      cases d0 with
      | nil =>
        simp only [deepcopyGo, Option.some.injEq, Prod.mk.injEq] at h
        obtain ⟨hσ, hr⟩ := h
        subst hσ
        subst hr
        refine ⟨hwf, le_refl _, fun b _ => rfl, ?_, ?_⟩
        · intro a' ha'; nomatch ha'
        · intro d' hd'
          injection hd' with hd''
          subst hd''
          intro k b hkb
          cases hkb
      | cons kv rest =>
        obtain ⟨k0, v0⟩ := kv
        cases v0 with
        | prim j =>
          simp only [deepcopyGo] at h
          cases hrec : deepcopyGo fuel σ (.entries rest) with
          | none => simp [hrec] at h
          | some p =>
            obtain ⟨σ₁, r₁⟩ := p
            cases r₁ with
            | addr a₁ => simp [hrec] at h
            | entries rest' =>
              simp only [hrec, Option.some.injEq, Prod.mk.injEq] at h
              obtain ⟨hσ, hr⟩ := h
              subst hσ
              subst hr
              obtain ⟨hwf₁, hmono₁, hframe₁, _, hents₁⟩ :=
                ih σ (.entries rest) σ₁ (.entries rest') hwf hrec
              refine ⟨hwf₁, hmono₁, hframe₁, ?_, ?_⟩
              · intro a' ha'; nomatch ha'
              · intro d' hd'
                injection hd' with hd''
                subst hd''
                intro k b hkb
                rcases List.mem_cons.mp hkb with hh | hh
                · injection hh with h1 h2
                  nomatch h2
                · exact hents₁ rest' rfl k b hh
        | ref b0 =>
          simp only [deepcopyGo] at h
          cases hrec1 : deepcopyGo fuel σ (.addr b0) with
          | none => simp [hrec1] at h
          | some p =>
            obtain ⟨σ₁, r₁⟩ := p
            cases r₁ with
            | entries d₁ => simp [hrec1] at h
            | addr b1 =>
              simp only [hrec1] at h
              cases hrec2 : deepcopyGo fuel σ₁ (.entries rest) with
              | none => simp [hrec2] at h
              | some q =>
                obtain ⟨σ₂, r₂⟩ := q
                cases r₂ with
                | addr a₂ => simp [hrec2] at h
                | entries rest' =>
                  simp only [hrec2, Option.some.injEq, Prod.mk.injEq] at h
                  obtain ⟨hσ, hr⟩ := h
                  subst hσ
                  subst hr
                  obtain ⟨hwf₁, hm₁, hf₁, haddr₁, _⟩ :=
                    ih σ (.addr b0) σ₁ (.addr b1) hwf hrec1
                  obtain ⟨hb1a, hb1b, _⟩ := haddr₁ b1 rfl
                  obtain ⟨hwf₂, hm₂, hf₂, _, hents₂⟩ :=
                    ih σ₁ (.entries rest) σ₂ (.entries rest') hwf₁ hrec2
                  refine ⟨hwf₂, le_trans hm₁ hm₂, ?_, ?_, ?_⟩
                  · intro b hb
                    rw [hf₂ b (lt_of_lt_of_le hb hm₁), hf₁ b hb]
                  · intro a' ha'; nomatch ha'
                  · intro d' hd'
                    injection hd' with hd''
                    subst hd''
                    intro k b hkb
                    rcases List.mem_cons.mp hkb with hh | hh
                    · injection hh with h1 h2
                      injection h2 with h3
                      subst h3
                      exact ⟨hb1a, lt_of_lt_of_le hb1b hm₂⟩
                    · obtain ⟨h1, h2⟩ := hents₂ rest' rfl k b hh
                      exact ⟨le_trans hm₁ h1, h2⟩

/-- One `encode_presence` loop iteration preserves well-formedness,
only grows the heap, and leaves every previously allocated address
untouched: its mutations (the `user_id` pop and the `sender`
assignment) land only on the freshly deep-copied objects. -/
theorem encodePresOne_spec (fuel : Nat) (σ : Heap) (a : Nat) (σ' : Heap)
    (a' : Nat) (hwf : σ.wf) (h : encodePresOne fuel σ a = some (σ', a')) :
    σ'.wf ∧ σ.next ≤ σ'.next ∧ ∀ b, b < σ.next → σ'.get b = σ.get b := by
  unfold encodePresOne deepcopyAddr at h
  cases hgo : deepcopyGo fuel σ (.addr a) with
  | none => simp [hgo] at h
  | some q =>
    obtain ⟨σ₁, rg⟩ := q
    cases rg with
    | entries d₁ => simp [hgo] at h
    | addr a₁ =>
      simp only [hgo] at h
      obtain ⟨hwf₁, hm₁, hf₁, haddr₁, _⟩ :=
        deepcopyGo_spec fuel σ (.addr a) σ₁ (.addr a₁) hwf hgo
      obtain ⟨ha₁lo, ha₁hi, d₁, hgd₁, hrefs₁⟩ := haddr₁ a₁ rfl
      cases hg : σ₁.get a₁ with
      | none => simp [hg] at h
      | some d =>
        simp only [hg] at h
        have hd : d = d₁ := by
          rw [hg] at hgd₁
          exact Option.some.inj hgd₁
        subst hd
        cases hc : dlookup "content" d with
        | none => simp [hc] at h
        | some vc =>
          cases vc with
          | prim j => simp [hc] at h
          | ref c =>
            simp only [hc] at h
            cases hgc : σ₁.get c with
            | none => simp [hgc] at h
            | some cd =>
              simp only [hgc] at h
              cases hu : dlookup "user_id" cd with
              | none => simp [hu] at h
              | some uid =>
                simp only [hu, Option.some.injEq, Prod.mk.injEq] at h
                obtain ⟨hσ', ha'⟩ := h
                subst hσ'
                subst ha'
                obtain ⟨hclo, hchi⟩ :=
                  hrefs₁ "content" c (dlookup_mem d "content" (.ref c) hc)
                refine ⟨?_, ?_, ?_⟩
                · exact Heap.wf_set _ _ _ (Heap.wf_set _ _ _ hwf₁)
                · rw [Heap.next_set, Heap.next_set]
                  exact hm₁
                · intro b hb
                  rw [Heap.get_set_ne _ _ _ _ (by omega),
                    Heap.get_set_ne _ _ _ _ (by omega)]
                  exact hf₁ b hb

/-- C9: `encode_presence` on the heap model never mutates its input —
the events are deep-copied before `user_id` is popped out of their
`content`, so after encoding every address allocated beforehand (in
particular every caller-visible event and content object) still holds
exactly the object it held before the call. -/
theorem c9_encode_presence_no_mutation (fuel : Nat) (σ : Heap)
    (addrs : List Nat) (σ' : Heap) (out : List Nat) (hwf : σ.wf)
    (h : encode_presence_heap fuel σ addrs = some (σ', out)) :
    ∀ b, b < σ.next → σ'.get b = σ.get b := by
  induction addrs generalizing σ out with
  | nil =>
    simp only [encode_presence_heap, Option.some.injEq, Prod.mk.injEq] at h
    obtain ⟨hσ, _⟩ := h
    subst hσ
    exact fun b _ => rfl
  | cons a rest ih =>
    simp only [encode_presence_heap] at h
    cases h1 : encodePresOne fuel σ a with
    | none => simp [h1] at h
    | some p =>
      obtain ⟨σ₁, a₁⟩ := p
      simp only [h1] at h
      cases h2 : encode_presence_heap fuel σ₁ rest with
      | none => simp [h2] at h
      | some q =>
        obtain ⟨σ₂, out'⟩ := q
        simp only [h2, Option.some.injEq, Prod.mk.injEq] at h
        obtain ⟨hσ, _⟩ := h
        subst hσ
        obtain ⟨hwf₁, hm₁, hf₁⟩ := encodePresOne_spec fuel σ a σ₁ a₁ hwf h1
        intro b hb
        rw [ih σ₁ out' hwf₁ h2 b (lt_of_lt_of_le hb hm₁)]
        exact hf₁ b hb

theorem c9_witness :
    (encode_presence_heap 10 sampleHeap [0]).map
        (fun p => (p.1.get 0, p.1.get 1)) =
      some (sampleHeap.get 0, sampleHeap.get 1) := by
  have hsome : (encode_presence_heap 10 sampleHeap [0]).isSome = true := by
    decide
  obtain ⟨⟨σ', out⟩, hres⟩ := Option.isSome_iff_exists.mp hsome
  have hwf : sampleHeap.wf := by
    intro p hp
    fin_cases hp <;> decide
  have hframe := c9_encode_presence_no_mutation 10 sampleHeap [0] σ' out
    hwf hres
  rw [hres]
  show some (σ'.get 0, σ'.get 1) = some (sampleHeap.get 0, sampleHeap.get 1)
  rw [hframe 0 (by decide), hframe 1 (by decide)]

end SyncServlet
